import Mathlib

/-!
Shallow embedding of `src/src/Corrade/Utility/Resource.cpp`.

Strings and byte buffers (`std::string`, `unsigned char*`) are modelled as
`List Nat` of byte values; `unsigned int` arithmetic is `Nat` arithmetic
taken modulo `2^32` wherever the C++ type wraps.  The process-wide
`std::map` containers are modelled as sorted association lists over the
lexicographic order on `List Nat` (Mathlib's `LinearOrder (List Nat)`),
which is exactly `std::string`'s `operator<` on byte strings.
-/

namespace Corrade

/-- Modulus of the C++ `unsigned int` type (32 bits on every platform this
code targets; `sizeof(unsigned int) == 4` is hard-coded in `registerData`). -/
def M32 : Nat := 4294967296

/-- Model of `Resource::numberToString`: the four bytes of an `unsigned int`
in native (little-endian) byte order, least significant byte first. -/
def numberToString (n : Nat) : List Nat :=
  [n % 256, n / 256 % 256, n / 65536 % 256, n / 16777216 % 256]

/-- Model of `*reinterpret_cast<const unsigned int*>(buf + i)`: reassemble a
native-order 32-bit unsigned integer from four bytes at offset `i`.  Reads
past the end of the buffer yield byte value 0 (the C++ would be undefined
behaviour there; no claim exercises that case in bounds). -/
def readU32 (buf : List Nat) (i : Nat) : Nat :=
  buf.getD i 0 % 256 + 256 * (buf.getD (i+1) 0 % 256) +
    65536 * (buf.getD (i+2) 0 % 256) + 16777216 * (buf.getD (i+3) 0 % 256)

/-- 32-bit unsigned subtraction `a - b`, as computed by C++ `unsigned int`
arithmetic (wraps modulo `2^32`). -/
def usub32 (a b : Nat) : Nat := (a + M32 - b % M32) % M32

/-- The decoding loop of `Resource::registerData` (Resource.cpp:73-87):
on each iteration read the cumulative filename position and cumulative data
position at byte offsets `i` and `i+4` of `positions`, slice the
corresponding segments out of `filenames` and `data`, and advance.
Produces the decoded (name, content) pairs in loop order. -/
def decodeLoop (P F D : List Nat) : Nat → Nat → Nat → Nat → List (List Nat × List Nat)
  | 0, _, _, _ => []
  | iters+1, i, oldF, oldD =>
    ((F.drop oldF).take (usub32 (readU32 P i) oldF),
     (D.drop oldD).take (usub32 (readU32 P (i+4)) oldD)) ::
      decodeLoop P F D iters (i+8) (readU32 P i) (readU32 P (i+4))

/-- The (name, content) pairs decoded by `Resource::registerData` from the
`count`/`positions`/`filenames`/`data` arguments.  The loop guard
`i != count*2*size` with `i += 2*size` in 32-bit arithmetic executes
`count % 2^29` iterations (both sides wrap modulo `2^32` and the step is 8). -/
def decodePairs (count : Nat) (P F D : List Nat) : List (List Nat × List Nat) :=
  decodeLoop P F D (count % 536870912) 0 0 0

/-- Sum of the filename lengths of a file list. -/
def namesLen (files : List (List Nat × List Nat)) : Nat :=
  (files.map (fun p => p.1.length)).sum

/-- Sum of the content lengths of a file list. -/
def dataLen (files : List (List Nat × List Nat)) : Nat :=
  (files.map (fun p => p.2.length)).sum

/-- The `resourceFilenames` array built by `Resource::compile`: the file
names concatenated in order.  (`compile` interleaves C comments and newlines
in the generated source text, but those contribute no array elements; only
the `hexcode(it->first)` bytes do.) -/
def namesBlob (files : List (List Nat × List Nat)) : List Nat :=
  (files.map Prod.fst).flatten

/-- The `resourceData` array built by `Resource::compile`: the file contents
concatenated in order. -/
def dataBlob (files : List (List Nat × List Nat)) : List Nat :=
  (files.map Prod.snd).flatten

/-- The `resourcePositions` array built by `Resource::compile` starting from
running totals `fAcc` (filenamesLen) and `dAcc` (dataLen): per file append
`numberToString(filenamesLen)` then `numberToString(dataLen)`, both counters
being C++ `unsigned int`s that wrap modulo `2^32` on `+=`. -/
def encodePositionsFrom : List (List Nat × List Nat) → Nat → Nat → List Nat
  | [], _, _ => []
  | (n, c) :: rest, fAcc, dAcc =>
    numberToString ((fAcc + n.length) % M32) ++
      (numberToString ((dAcc + c.length) % M32) ++
        encodePositionsFrom rest ((fAcc + n.length) % M32)
          ((dAcc + c.length) % M32))

/-- Final value of `compile`'s `dataLen` counter: 32-bit accumulation of the
content lengths. -/
def dataLenFinal (files : List (List Nat × List Nat)) : Nat :=
  files.foldl (fun a p => (a + p.2.length) % M32) 0

/-- The arguments of the `registerData` call emitted by `Resource::compile`
into the generated source.  `data = none` models passing `nullptr`. -/
structure RegistrationArgs where
  count : Nat
  positions : List Nat
  filenames : List Nat
  data : Option (List Nat)
deriving DecidableEq, Repr

/-- Model of `Resource::compile` (Resource.cpp:145-239), reduced to the
semantic content of the generated source: the `registerData` arguments.  An
empty file list emits `registerData(group, 0, nullptr, nullptr, nullptr)`;
otherwise the three arrays are emitted, with `nullptr` for the data array
exactly when the final `dataLen` counter is zero. -/
def compile (files : List (List Nat × List Nat)) : RegistrationArgs :=
  if files.isEmpty then ⟨0, [], [], none⟩
  else
    ⟨files.length, encodePositionsFrom files 0 0, namesBlob files,
      if dataLenFinal files = 0 then none else some (dataBlob files)⟩

/-! ## Sorted association-list maps (model of `std::map<std::string, V>`) -/

/-- `std::map::find`, extensionally: first binding of the key. -/
def mapFind {V : Type} (m : List (List Nat × V)) (k : List Nat) : Option V :=
  match m with
  | [] => none
  | (k', v) :: rest => if k = k' then some v else mapFind rest k

/-- `std::map::emplace` / `insert`: ordered insertion that keeps the existing
binding when the key is already present (first insertion wins). -/
def mapInsert {V : Type} (k : List Nat) (v : V) : List (List Nat × V) → List (List Nat × V)
  | [] => [(k, v)]
  | (k', v') :: rest =>
    if k < k' then (k, v) :: (k', v') :: rest
    else if k = k' then (k', v') :: rest
    else (k', v') :: mapInsert k v rest

/-- In-place update of the value bound to an existing key
(`it->second = v` after a successful `find`). -/
def mapUpdate {V : Type} (k : List Nat) (v : V) : List (List Nat × V) → List (List Nat × V)
  | [] => []
  | (k', v') :: rest => if k = k' then (k, v) :: rest else (k', v') :: mapUpdate k v rest

/-- `std::map::erase` of a key. -/
def mapErase {V : Type} (k : List Nat) : List (List Nat × V) → List (List Nat × V)
  | [] => []
  | (k', v') :: rest => if k = k' then rest else (k', v') :: mapErase k rest

/-! ## Registry -/

/-- Model of `Resource::GroupData`: the decoded resource map
(name ↦ (content bytes, whether the stored `ArrayReference`'s pointer is
null, i.e. the group was registered with `data == nullptr`)) and the
override configuration-file path (empty string = no override). -/
structure GroupData where
  resources : List (List Nat × (List Nat × Bool))
  overrideGroup : List Nat
deriving DecidableEq, Repr

/-- The process-wide `Resource::resources()` map: group name ↦ `GroupData`. -/
abbrev Registry := List (List Nat × GroupData)

/-- The `GroupData` built by `Resource::registerData` for a fresh group:
decode the pairs and `emplace` each into the resource map in loop order
(duplicate names keep the first occurrence).  All views point into the
`data` buffer, so they are null views exactly when `data` was `nullptr`. -/
def makeGroupData (count : Nat) (positions filenames : List Nat)
    (data : Option (List Nat)) : GroupData :=
  ⟨(decodePairs count positions filenames (data.getD [])).foldl
      (fun m p => mapInsert p.1 (p.2, data.isNone) m) [], []⟩

/-- Model of `Resource::registerData` (Resource.cpp:54-88): a no-op when the
group is already registered, otherwise decode and insert a fresh group. -/
def registerData (reg : Registry) (group : List Nat) (count : Nat)
    (positions filenames : List Nat) (data : Option (List Nat)) : Registry :=
  match mapFind reg group with
  | some _ => reg
  | none => mapInsert group (makeGroupData count positions filenames data) reg

/-- Model of `Resource::unregisterData` (Resource.cpp:90-97).  The second
component is `false` when the `CORRADE_ASSERT` fires (group not registered):
the assert aborts before any mutation, so the returned registry is the
original one. -/
def unregisterData (reg : Registry) (group : List Nat) : Registry × Bool :=
  match mapFind reg group with
  | none => (reg, false)
  | some _ => (mapErase group reg, true)

/-- Model of `Resource::overrideGroup` (Resource.cpp:241-246).  The second
component is `false` when the `CORRADE_ASSERT` fires (group not found); the
registry is then unchanged. -/
def overrideGroup (reg : Registry) (group path : List Nat) : Registry × Bool :=
  match mapFind reg group with
  | none => (reg, false)
  | some gd => (mapUpdate group { gd with overrideGroup := path } reg, true)

/-! ## Override configuration and the Resource handle -/

/-- One `[file]` group of the override configuration: its `filename` value
(missing value reads as the empty string) and its optional `alias` value. -/
structure OverrideEntry where
  filename : List Nat
  aliasName : Option (List Nat)
deriving DecidableEq, Repr

/-- The parsed override `Configuration`: the declared `group` value and the
ordered list of `[file]` groups (`conf.groups("file")`). -/
structure OverrideConf where
  group : List Nat
  files : List OverrideEntry
deriving DecidableEq, Repr

/-- The name an override entry matches against
(`file->hasValue("alias") ? file->value("alias") : file->value("filename")`). -/
def entryName (e : OverrideEntry) : List Nat :=
  e.aliasName.getD e.filename

/-- Model of `Resource::OverrideData`: the parsed configuration and the
cache of already-loaded file contents. -/
structure OverrideData where
  conf : OverrideConf
  data : List (List Nat × List Nat)
deriving DecidableEq, Repr

/-- State of one `Resource` handle: the bound group's name and data, plus
the lazily created override state (`_overrideGroup`, null when the group has
no override path). -/
structure ResourceState where
  groupName : List Nat
  groupData : GroupData
  override : Option OverrideData
deriving DecidableEq, Repr

/-- Model of the `Resource` constructor (Resource.cpp:248-263): `none` when
the `CORRADE_ASSERT` fires (unknown group).  `provider` models the
`Configuration` parser applied to the override path; an unreadable file
parses as an empty configuration, the group-name-mismatch warning is
non-fatal and not modelled. -/
def constructResource (reg : Registry) (provider : List Nat → OverrideConf)
    (group : List Nat) : Option ResourceState :=
  match mapFind reg group with
  | none => none
  | some gd =>
    some ⟨group, gd,
      if gd.overrideGroup = [] then none
      else some ⟨provider gd.overrideGroup, []⟩⟩

/-- Result of `Resource::getRaw`:
`view bytes isNull` is a returned `ArrayReference` with the given contents
and pointer-nullity; `nullRef` is the `return nullptr` taken when loading an
override-declared file fails; `fatal g f` is the `CORRADE_ASSERT` firing
with the message naming filename `f` and group `g`
(`"Utility::Resource::get(): file '<f>' was not found in group '<g>'"`). -/
inductive RawResult where
  | view (bytes : List Nat) (isNull : Bool)
  | nullRef
  | fatal (group filename : List Nat)
deriving DecidableEq, Repr

/-- The compiled-in tail of `Resource::getRaw` (Resource.cpp:325-334):
look the name up in the group's resource map, asserting when absent. -/
def compiledLookup (st : ResourceState) (filename : List Nat) :
    RawResult × ResourceState :=
  match mapFind st.groupData.resources filename with
  | some bv => (.view bv.1 bv.2, st)
  | none => (.fatal st.groupName filename, st)

/-- Model of `Resource::getRaw` (Resource.cpp:280-335).  `loader` models
`fileContents(Directory::join(Directory::path(overridePath), filename))`:
`none` on a missing/unreadable file.  A `Containers::Array` loaded from a
file has a null data pointer exactly when it is empty, hence the
`bytes.isEmpty` nullity of override views.  The state component carries the
(possibly grown) override cache. -/
def getRaw (loader : List Nat → Option (List Nat)) (st : ResourceState)
    (filename : List Nat) : RawResult × ResourceState :=
  match st.override with
  | none => compiledLookup st filename
  | some od =>
    match mapFind od.data filename with
    | some arr => (.view arr arr.isEmpty, st)
    | none =>
      match od.conf.files.find? (fun e => entryName e = filename) with
      | some e =>
        match loader e.filename with
        | none => (.nullRef, st)
        | some bytes =>
          (.view bytes bytes.isEmpty,
           { st with override := some ⟨od.conf, mapInsert filename bytes od.data⟩ })
      | none => compiledLookup st filename

/-- Result of `Resource::get`: a string, or the propagated abort from
`getRaw`'s assert. -/
inductive GetResult where
  | str (s : List Nat)
  | fatal (group filename : List Nat)
deriving DecidableEq, Repr

/-- Model of `Resource::get` (Resource.cpp:337-340):
`data ? std::string(data.begin(), data.size()) : std::string()` — a null
view becomes the empty string, a non-null view its bytes. -/
def get (loader : List Nat → Option (List Nat)) (st : ResourceState)
    (filename : List Nat) : GetResult × ResourceState :=
  match getRaw loader st filename with
  | (.view bytes isNull, st') => (.str (if isNull then [] else bytes), st')
  | (.nullRef, st') => (.str [], st')
  | (.fatal g f, st') => (.fatal g f, st')

/-- Model of `Resource::list` (Resource.cpp:269-278): the keys of the bound
group's resource map in iteration (sorted) order. -/
def list (st : ResourceState) : List (List Nat) :=
  st.groupData.resources.map Prod.fst

/-- Keys of a `GroupData`'s resource map, i.e. what `list` returns for a
handle bound to it. -/
def listKeys (gd : GroupData) : List (List Nat) :=
  gd.resources.map Prod.fst

/-! ## Basic facts about the association-list maps -/

lemma mapFind_mapInsert_of_none {V : Type} (k : List Nat) (v : V)
    (m : List (List Nat × V)) (h : mapFind m k = none) :
    mapFind (mapInsert k v m) k = some v := by
  induction m with
  | nil => simp [mapInsert, mapFind]
  | cons hd tl ih =>
    obtain ⟨k', v'⟩ := hd
    rw [mapFind] at h
    by_cases heq : k = k'
    · simp [heq] at h
    · simp [heq] at h
      by_cases hlt : k < k'
      · simp [mapInsert, mapFind, hlt, heq]
      · simp [mapInsert, mapFind, hlt, heq, ih h]

lemma mapFind_mapInsert_isSome {V : Type} (k : List Nat) (v : V)
    (m : List (List Nat × V)) :
    (mapFind (mapInsert k v m) k).isSome = true := by
  induction m with
  | nil => simp [mapInsert, mapFind]
  | cons hd tl ih =>
    obtain ⟨k', v'⟩ := hd
    by_cases hlt : k < k'
    · simp [mapInsert, mapFind, hlt]
    · by_cases heq : k = k'
      · simp [mapInsert, mapFind, hlt, heq]
      · simp [mapInsert, mapFind, hlt, heq, ih]

lemma registerData_of_found (reg : Registry) (g : List Nat) (c : Nat)
    (p f : List Nat) (d : Option (List Nat)) (gd : GroupData)
    (h : mapFind reg g = some gd) :
    registerData reg g c p f d = reg := by
  simp [registerData, h]

lemma mapFind_registerData_isSome (reg : Registry) (g : List Nat) (c : Nat)
    (p f : List Nat) (d : Option (List Nat)) :
    (mapFind (registerData reg g c p f d) g).isSome = true := by
  unfold registerData
  cases hm : mapFind reg g with
  | some gd => simp [hm]
  | none => simp [mapFind_mapInsert_isSome, hm]

lemma mapFind_registerData_of_none (reg : Registry) (g : List Nat) (c : Nat)
    (p f : List Nat) (d : Option (List Nat)) (h : mapFind reg g = none) :
    mapFind (registerData reg g c p f d) g =
      some (makeGroupData c p f d) := by
  unfold registerData
  rw [h]
  exact mapFind_mapInsert_of_none _ _ _ h

/-! ## C4: duplicate registration is a first-wins no-op -/

/-- C4: `registerData` is idempotent on the group name with
first-registration-wins semantics: registering a group that is already
registered — even with different count/positions/filenames/data — leaves the
registry, and in particular the first registration's manifest (the `mapFind`
result, whose keys are what `list()` reports), exactly unchanged. -/
theorem registerData_idempotent (reg : Registry) (g : List Nat)
    (c : Nat) (p f : List Nat) (d : Option (List Nat))
    (c' : Nat) (p' f' : List Nat) (d' : Option (List Nat)) :
    registerData (registerData reg g c p f d) g c' p' f' d' =
      registerData reg g c p f d ∧
    mapFind (registerData (registerData reg g c p f d) g c' p' f' d') g =
      mapFind (registerData reg g c p f d) g := by
  have h := mapFind_registerData_isSome reg g c p f d
  obtain ⟨gd, hgd⟩ := Option.isSome_iff_exists.mp h
  have hno := registerData_of_found (registerData reg g c p f d) g c' p' f' d' gd hgd
  exact ⟨hno, by rw [hno]⟩

/-! ## C5: empty-input law -/

/-- C5: `compile` on an empty file list emits a registration with
`count = 0` and null arrays; `registerData` with `count = 0` produces a
manifest with zero entries regardless of the buffer contents, and `list()`
on a handle bound to that group returns the empty list. -/
theorem empty_input_law (reg : Registry) (g : List Nat) (p f : List Nat)
    (d : Option (List Nat)) (provider : List Nat → OverrideConf)
    (h : mapFind reg g = none) :
    compile [] = ⟨0, [], [], none⟩ ∧
    mapFind (registerData reg g 0 p f d) g = some ⟨[], []⟩ ∧
    constructResource (registerData reg g 0 p f d) provider g =
      some ⟨g, ⟨[], []⟩, none⟩ ∧
    list ⟨g, ⟨[], []⟩, none⟩ = [] := by
  have hm : makeGroupData 0 p f d = ⟨[], []⟩ := by
    simp [makeGroupData, decodePairs, decodeLoop]
  have hfind : mapFind (registerData reg g 0 p f d) g = some ⟨[], []⟩ := by
    rw [mapFind_registerData_of_none reg g 0 p f d h, hm]
  refine ⟨by decide, hfind, ?_, rfl⟩
  simp [constructResource, hfind]

/-- Witness for C5 at a concrete fresh registry and arbitrary junk buffers. -/
theorem empty_input_law_witness :
    compile [] = ⟨0, [], [], none⟩ ∧
    mapFind (registerData [] [103] 0 [7, 7] [8] (some [9])) [103] =
      some ⟨[], []⟩ ∧
    constructResource (registerData [] [103] 0 [7, 7] [8] (some [9]))
      (fun _ => ⟨[], []⟩) [103] = some ⟨[103], ⟨[], []⟩, none⟩ ∧
    list ⟨[103], ⟨[], []⟩, none⟩ = [] :=
  empty_input_law [] [103] [7, 7] [8] (some [9]) (fun _ => ⟨[], []⟩) rfl

/-! ## C8: caller misuse on an unknown group is a fatal assert -/

/-- C8: for a group absent from the registry, constructing a `Resource`
fires the constructor's assert (`none`), and `unregisterData` and
`overrideGroup` fire theirs (`false` flag); in each case the registry is
left unchanged (`unregisterData`/`overrideGroup` return the original
registry; the constructor never mutates it). -/
theorem unknown_group_assert (reg : Registry)
    (provider : List Nat → OverrideConf) (g path : List Nat)
    (h : mapFind reg g = none) :
    constructResource reg provider g = none ∧
    unregisterData reg g = (reg, false) ∧
    overrideGroup reg g path = (reg, false) := by
  refine ⟨?_, ?_, ?_⟩ <;>
    simp [constructResource, unregisterData, overrideGroup, h]

/-- Witness for C8 on a concrete one-group registry and a missing group. -/
theorem unknown_group_assert_witness :
    constructResource [([98], ⟨[], []⟩)] (fun _ => ⟨[], []⟩) [97] = none ∧
    unregisterData [([98], ⟨[], []⟩)] [97] = ([([98], ⟨[], []⟩)], false) ∧
    overrideGroup [([98], ⟨[], []⟩)] [97] [112] =
      ([([98], ⟨[], []⟩)], false) :=
  unknown_group_assert [([98], ⟨[], []⟩)] (fun _ => ⟨[], []⟩) [97] [112]
    (by decide)

/-! ## C2, C3, C6, C7: override resolution in `getRaw` -/

/-- C2: with an active override (fresh handle, so the cache is empty), a
name `a` declared in the external manifest whose file loads as `newA` is
answered from the override even though the compiled-in manifest maps it to
`oldA` (the override shadows the compiled-in data); a name `b` not declared
in the override manifest falls back to its compiled-in content; and a name
`cn` declared in the override whose file is unreadable makes that `getRaw`
call fail with a null reference instead of falling back. -/
theorem override_shadow_precedence (reg : Registry) (g : List Nat)
    (gd : GroupData) (provider : List Nat → OverrideConf)
    (loader : List Nat → Option (List Nat)) (st : ResourceState)
    (a b cn oldA newA oldB : List Nat) (nullA nullB : Bool)
    (ea ec : OverrideEntry)
    (hfind : mapFind reg g = some gd)
    (hpath : gd.overrideGroup ≠ [])
    (hst : constructResource reg provider g = some st)
    (_holdA : mapFind gd.resources a = some (oldA, nullA))
    (ha : (provider gd.overrideGroup).files.find?
      (fun e => entryName e = a) = some ea)
    (hloadA : loader ea.filename = some newA)
    (hb : (provider gd.overrideGroup).files.find?
      (fun e => entryName e = b) = none)
    (holdB : mapFind gd.resources b = some (oldB, nullB))
    (hc : (provider gd.overrideGroup).files.find?
      (fun e => entryName e = cn) = some ec)
    (hloadC : loader ec.filename = none) :
    (getRaw loader st a).1 = RawResult.view newA newA.isEmpty ∧
    (getRaw loader st b).1 = RawResult.view oldB nullB ∧
    (getRaw loader st cn).1 = RawResult.nullRef := by
  have hst' : st = ⟨g, gd, some ⟨provider gd.overrideGroup, []⟩⟩ := by
    rw [constructResource, hfind] at hst
    simp [hpath] at hst
    exact hst.symm
  subst hst'
  refine ⟨?_, ?_, ?_⟩ <;>
    simp [getRaw, mapFind, ha, hb, hc, hloadA, hloadC, compiledLookup, holdB]

/-- Witness for C2: group `"g"` maps `a = [97]` to `[111]` ("old"); the
override declares aliases for `[97]` (readable, contents `[110]`) and
`[99]` (unreadable); `[98]` is not declared and falls back to `[112]`. -/
theorem override_shadow_precedence_witness :
    (getRaw (fun fl => if fl = [70] then some [110] else none)
      ⟨[103], ⟨[([97], ([111], false)), ([98], ([112], false))], [79]⟩,
        some ⟨⟨[103], [⟨[70], some [97]⟩, ⟨[71], some [99]⟩]⟩, []⟩⟩
      [97]).1 = RawResult.view [110] false ∧
    (getRaw (fun fl => if fl = [70] then some [110] else none)
      ⟨[103], ⟨[([97], ([111], false)), ([98], ([112], false))], [79]⟩,
        some ⟨⟨[103], [⟨[70], some [97]⟩, ⟨[71], some [99]⟩]⟩, []⟩⟩
      [98]).1 = RawResult.view [112] false ∧
    (getRaw (fun fl => if fl = [70] then some [110] else none)
      ⟨[103], ⟨[([97], ([111], false)), ([98], ([112], false))], [79]⟩,
        some ⟨⟨[103], [⟨[70], some [97]⟩, ⟨[71], some [99]⟩]⟩, []⟩⟩
      [99]).1 = RawResult.nullRef := by
  have h := override_shadow_precedence
    [([103], ⟨[([97], ([111], false)), ([98], ([112], false))], [79]⟩)] [103]
    ⟨[([97], ([111], false)), ([98], ([112], false))], [79]⟩
    (fun _ => ⟨[103], [⟨[70], some [97]⟩, ⟨[71], some [99]⟩]⟩)
    (fun fl => if fl = [70] then some [110] else none)
    ⟨[103], ⟨[([97], ([111], false)), ([98], ([112], false))], [79]⟩,
      some ⟨⟨[103], [⟨[70], some [97]⟩, ⟨[71], some [99]⟩]⟩, []⟩⟩
    [97] [98] [99] [111] [110] [112] false false
    ⟨[70], some [97]⟩ ⟨[71], some [99]⟩
    (by decide) (by decide) (by decide) (by decide) (by decide) (by decide)
    (by decide) (by decide) (by decide) (by decide)
  exact h

/-- C3: when the override is active, the requested name misses the cache but
matches a manifest entry, and loading that entry's file fails, `getRaw`
returns the null reference (`return nullptr`, Resource.cpp:306) with the
state — in particular the override cache — unchanged: the failure is
propagated, nothing is cached, and there is no fallback to the compiled-in
manifest.  (A name not declared in the manifest instead falls through to the
compiled-in lookup, which never produces `nullRef`, so the two outcomes are
distinguishable.) -/
theorem override_load_failure_no_fallback
    (loader : List Nat → Option (List Nat)) (st : ResourceState)
    (od : OverrideData) (filename : List Nat) (e : OverrideEntry)
    (hov : st.override = some od)
    (hcache : mapFind od.data filename = none)
    (hfind : od.conf.files.find? (fun x => entryName x = filename) = some e)
    (hload : loader e.filename = none) :
    getRaw loader st filename = (RawResult.nullRef, st) := by
  simp [getRaw, hov, hcache, hfind, hload]

/-- Witness for C3: a declared-but-unreadable override entry propagates the
load failure without caching or falling back to the compiled-in `[111]`. -/
theorem override_load_failure_no_fallback_witness :
    getRaw (fun _ => none)
      ⟨[103], ⟨[([97], ([111], false))], [79]⟩,
        some ⟨⟨[103], [⟨[70], some [97]⟩]⟩, []⟩⟩ [97] =
      (RawResult.nullRef,
       ⟨[103], ⟨[([97], ([111], false))], [79]⟩,
        some ⟨⟨[103], [⟨[70], some [97]⟩]⟩, []⟩⟩) :=
  override_load_failure_no_fallback (fun _ => none)
    ⟨[103], ⟨[([97], ([111], false))], [79]⟩,
      some ⟨⟨[103], [⟨[70], some [97]⟩]⟩, []⟩⟩
    ⟨⟨[103], [⟨[70], some [97]⟩]⟩, []⟩ [97] ⟨[70], some [97]⟩
    (by decide) (by decide) (by decide) (by decide)

/-- C6: a name absent from the active override manifest (both its cache and
its declared entries) — or looked up with no override active — and absent
from the group's compiled-in manifest makes `getRaw` fire the not-found
assert, whose message names both the group and the filename (modelled by the
`fatal` result carrying exactly those two strings); no byte view is
returned and the state is unchanged. -/
theorem getRaw_not_found_fatal (loader : List Nat → Option (List Nat))
    (st : ResourceState) (filename : List Nat)
    (hov : ∀ od, st.override = some od →
      mapFind od.data filename = none ∧
      od.conf.files.find? (fun x => entryName x = filename) = none)
    (habs : mapFind st.groupData.resources filename = none) :
    getRaw loader st filename = (RawResult.fatal st.groupName filename, st) := by
  cases hst : st.override with
  | none => simp [getRaw, hst, compiledLookup, habs]
  | some od =>
    obtain ⟨h1, h2⟩ := hov od hst
    simp [getRaw, hst, h1, h2, compiledLookup, habs]

/-- Witness for C6: a handle with an active override whose manifest declares
only `[97]`; the name `[109]` is declared nowhere and hits the fatal assert
naming group `[103]` and filename `[109]`. -/
theorem getRaw_not_found_fatal_witness :
    getRaw (fun _ => some [5])
      ⟨[103], ⟨[([97], ([111], false))], [79]⟩,
        some ⟨⟨[103], [⟨[70], some [97]⟩]⟩, []⟩⟩ [109] =
      (RawResult.fatal [103] [109],
       ⟨[103], ⟨[([97], ([111], false))], [79]⟩,
        some ⟨⟨[103], [⟨[70], some [97]⟩]⟩, []⟩⟩) :=
  getRaw_not_found_fatal (fun _ => some [5])
    ⟨[103], ⟨[([97], ([111], false))], [79]⟩,
      some ⟨⟨[103], [⟨[70], some [97]⟩]⟩, []⟩⟩ [109]
    (fun od hod => by
      rw [Option.some.injEq] at hod
      subst hod
      exact ⟨by decide, by decide⟩)
    (by decide)

lemma find?_first_match {α : Type} (p : α → Bool) (e : α) :
    ∀ (pre post : List α), (∀ e' ∈ pre, p e' = false) → p e = true →
      (pre ++ e :: post).find? p = some e := by
  intro pre post hpre he
  induction pre with
  | nil => simp [List.find?_cons, he]
  | cons x rest ih =>
    have hx : p x = false := hpre x (by simp)
    simp only [List.cons_append, List.find?_cons, hx]
    exact ih fun e' he' => hpre e' (by simp [he'])

/-- C7: on an override cache miss, `getRaw` scans the manifest's file
entries in declared order, matching each entry's alias (falling back to its
filename when no alias is declared) against the requested name; the first
matching entry wins and determines the whole result — the entries after it
(`post`) are never consulted, whether the winning entry's file loads or
not. -/
theorem override_first_match_wins (loader : List Nat → Option (List Nat))
    (st : ResourceState) (od : OverrideData) (filename : List Nat)
    (e : OverrideEntry) (pre post : List OverrideEntry)
    (hov : st.override = some od)
    (hcache : mapFind od.data filename = none)
    (hfiles : od.conf.files = pre ++ e :: post)
    (hpre : ∀ e' ∈ pre, entryName e' ≠ filename)
    (he : entryName e = filename) :
    od.conf.files.find? (fun x => entryName x = filename) = some e ∧
    getRaw loader st filename =
      match loader e.filename with
      | none => (RawResult.nullRef, st)
      | some bytes =>
        (RawResult.view bytes bytes.isEmpty,
         { st with override := some ⟨od.conf, mapInsert filename bytes od.data⟩ }) := by
  have hf : od.conf.files.find? (fun x => entryName x = filename) = some e := by
    rw [hfiles]
    exact find?_first_match _ e pre post
      (fun e' he' => by simp [hpre e' he']) (by simp [he])
  refine ⟨hf, ?_⟩
  cases hload : loader e.filename <;> simp [getRaw, hov, hcache, hf, hload]

/-- Witness for C7: two manifest entries both resolve the alias `[97]`; the
earlier one (filename `[70]`, loading `[5]`) wins over the later one
(filename `[71]`, which would load `[6]`), and its contents are cached. -/
theorem override_first_match_wins_witness :
    (⟨[103], [⟨[70], some [97]⟩, ⟨[71], some [97]⟩]⟩ :
        OverrideConf).files.find? (fun x => entryName x = [97]) =
      some ⟨[70], some [97]⟩ ∧
    getRaw (fun fl => if fl = [70] then some [5] else some [6])
      ⟨[103], ⟨[], []⟩,
        some ⟨⟨[103], [⟨[70], some [97]⟩, ⟨[71], some [97]⟩]⟩, []⟩⟩ [97] =
      (RawResult.view [5] false,
       ⟨[103], ⟨[], []⟩,
        some ⟨⟨[103], [⟨[70], some [97]⟩, ⟨[71], some [97]⟩]⟩,
          [([97], [5])]⟩⟩) := by
  have h := override_first_match_wins
    (fun fl => if fl = [70] then some [5] else some [6])
    ⟨[103], ⟨[], []⟩,
      some ⟨⟨[103], [⟨[70], some [97]⟩, ⟨[71], some [97]⟩]⟩, []⟩⟩
    ⟨⟨[103], [⟨[70], some [97]⟩, ⟨[71], some [97]⟩]⟩, []⟩ [97]
    ⟨[70], some [97]⟩ [] [⟨[71], some [97]⟩]
    (by decide) (by decide) (by decide) (by decide) (by decide)
  exact ⟨h.1, h.2⟩

/-! ## C9: the text accessor -/

/-- Counterexample to C9 as stated: end-to-end, compile and register the
files `e ↦ ""` and `x ↦ [1,2,3]` (so the data array is non-null), bind a
handle, and call the accessors on `e`.  `get` returns the empty string even
though `getRaw` did not signal absence: it returned a valid, non-null view
(`isNull = false`) that merely has empty contents.  So "returns the empty
string exactly when getRaw yields a null view" fails in the only-if
direction. -/
theorem get_empty_string_counterexample :
    constructResource
      (registerData [] [103] (compile [([101], []), ([120], [1, 2, 3])]).count
        (compile [([101], []), ([120], [1, 2, 3])]).positions
        (compile [([101], []), ([120], [1, 2, 3])]).filenames
        (compile [([101], []), ([120], [1, 2, 3])]).data)
      (fun _ => ⟨[], []⟩) [103] =
      some ⟨[103], ⟨[([101], ([], false)), ([120], ([1, 2, 3], false))], []⟩,
        none⟩ ∧
    (get (fun _ => none)
      ⟨[103], ⟨[([101], ([], false)), ([120], ([1, 2, 3], false))], []⟩, none⟩
      [101]).1 = GetResult.str [] ∧
    (getRaw (fun _ => none)
      ⟨[103], ⟨[([101], ([], false)), ([120], ([1, 2, 3], false))], []⟩, none⟩
      [101]).1 = RawResult.view [] false := by
  refine ⟨by decide, by decide, by decide⟩

/-- C9 amended: `get` returns `getRaw` reinterpreted as a string and
propagates `getRaw`'s fatal not-found abort unchanged; it returns the empty
string exactly when `getRaw` signals absence by a null result (the
load-failure null reference or a null view) **or** returns a view whose
contents are empty.  Null-result absence thus maps to a tolerated empty
string, kept distinct from the fatal not-found error. -/
theorem get_text_characterization (loader : List Nat → Option (List Nat))
    (st : ResourceState) (filename : List Nat) :
    ((get loader st filename).1 = GetResult.str [] ↔
      (getRaw loader st filename).1 = RawResult.nullRef ∨
      (∃ bytes, (getRaw loader st filename).1 = RawResult.view bytes true) ∨
      (∃ isNull, (getRaw loader st filename).1 = RawResult.view [] isNull)) ∧
    (∀ bytes, (getRaw loader st filename).1 = RawResult.view bytes false →
      (get loader st filename).1 = GetResult.str bytes) ∧
    (∀ gr fn, (getRaw loader st filename).1 = RawResult.fatal gr fn →
      (get loader st filename).1 = GetResult.fatal gr fn) := by
  cases hr : getRaw loader st filename with
  | mk r st' =>
    cases r with
    | view bytes isNull =>
      cases isNull with
      | false =>
        constructor
        · simp [get, hr]
        · refine ⟨fun b hb => ?_, fun gr fn hf => by simp at hf⟩
          simp at hb
          subst hb
          simp [get, hr]
      | true =>
        constructor
        · simp [get, hr]
        · exact ⟨fun b hb => by simp at hb, fun gr fn hf => by simp at hf⟩
    | nullRef =>
      exact ⟨by simp [get, hr], fun b hb => by simp at hb,
        fun gr fn hf => by simp at hf⟩
    | fatal gr fn =>
      refine ⟨by simp [get, hr], fun b hb => by simp at hb,
        fun gr' fn' hf => ?_⟩
      simp at hf
      obtain ⟨h1, h2⟩ := hf
      subst h1
      subst h2
      simp [get, hr]

/-- Witness for C9's amended characterization: applying it to a handle whose
group maps `[120]` to the non-null view `[1,2,3]` yields that string. -/
theorem get_text_characterization_witness :
    (get (fun _ => none)
      ⟨[103], ⟨[([101], ([], false)), ([120], ([1, 2, 3], false))], []⟩, none⟩
      [120]).1 = GetResult.str [1, 2, 3] :=
  (get_text_characterization (fun _ => none)
    ⟨[103], ⟨[([101], ([], false)), ([120], ([1, 2, 3], false))], []⟩, none⟩
    [120]).2.1 [1, 2, 3] (by decide)

/-! ## C10: `list()` is sorted, duplicate-free and order-independent -/

lemma mem_keys_mapInsert {V : Type} (k : List Nat) (v : V)
    (m : List (List Nat × V)) (a : List Nat) :
    a ∈ (mapInsert k v m).map Prod.fst ↔ a = k ∨ a ∈ m.map Prod.fst := by
  induction m with
  | nil => simp [mapInsert]
  | cons hd tl ih =>
    obtain ⟨k', v'⟩ := hd
    by_cases hlt : k < k'
    · simp [mapInsert, hlt]
    · by_cases heq : k = k'
      · subst heq
        simp [mapInsert, hlt]
      · simp [mapInsert, hlt, heq, ih]
        tauto

lemma sorted_keys_mapInsert {V : Type} (k : List Nat) (v : V)
    (m : List (List Nat × V))
    (hs : List.Sorted (· < ·) (m.map Prod.fst)) :
    List.Sorted (· < ·) ((mapInsert k v m).map Prod.fst) := by
  induction m with
  | nil => simp [mapInsert]
  | cons hd tl ih =>
    obtain ⟨k', v'⟩ := hd
    simp only [List.map_cons, List.sorted_cons] at hs
    obtain ⟨hall, hs'⟩ := hs
    by_cases hlt : k < k'
    · simp only [mapInsert, if_pos hlt, List.map_cons, List.sorted_cons]
      refine ⟨?_, hall, hs'⟩
      intro b hb
      rw [List.mem_cons] at hb
      rcases hb with hb1 | hb2
      · exact hb1 ▸ hlt
      · exact lt_trans hlt (hall b hb2)
    · by_cases heq : k = k'
      · simp only [mapInsert, if_neg hlt, if_pos heq, List.map_cons,
          List.sorted_cons]
        exact ⟨hall, hs'⟩
      · have hgt : k' < k := by
          rcases lt_trichotomy k k' with h | h | h
          · exact absurd h hlt
          · exact absurd h heq
          · exact h
        simp only [mapInsert, if_neg hlt, if_neg heq, List.map_cons,
          List.sorted_cons]
        refine ⟨?_, ih hs'⟩
        intro b hb
        rcases (mem_keys_mapInsert k v tl b).mp hb with hb1 | hb2
        · exact hb1 ▸ hgt
        · exact hall b hb2

lemma sorted_keys_resourceFold (pairs : List (List Nat × List Nat))
    (nullFlag : Bool) :
    ∀ m : List (List Nat × (List Nat × Bool)),
      List.Sorted (· < ·) (m.map Prod.fst) →
      List.Sorted (· < ·)
        ((pairs.foldl (fun m p => mapInsert p.1 (p.2, nullFlag) m) m).map
          Prod.fst) := by
  induction pairs with
  | nil => intro m hm; simpa using hm
  | cons pr rest ih =>
    intro m hm
    exact ih _ (sorted_keys_mapInsert _ _ _ hm)

lemma mem_keys_resourceFold (pairs : List (List Nat × List Nat))
    (nullFlag : Bool) :
    ∀ (m : List (List Nat × (List Nat × Bool))) (a : List Nat),
      (a ∈ (pairs.foldl (fun m p => mapInsert p.1 (p.2, nullFlag) m) m).map
          Prod.fst ↔
        a ∈ pairs.map Prod.fst ∨ a ∈ m.map Prod.fst) := by
  induction pairs with
  | nil => intro m a; simp
  | cons pr rest ih =>
    intro m a
    rw [List.foldl_cons, ih, mem_keys_mapInsert]
    simp only [List.map_cons, List.mem_cons]
    tauto

/-- C10: the resource map built by `registerData` (here `makeGroupData`)
yields a `list()` that is sorted in strictly increasing lexicographic order
(the iteration order of `std::map`) with no duplicates, and — whenever two
encoded inputs decode to the same multiset of names — the same `list()`,
independent of the order in which the files appeared in the encoded
arrays. -/
theorem list_sorted_nodup_order_independent (g : List Nat)
    (c : Nat) (p f : List Nat) (d : Option (List Nat))
    (c' : Nat) (p' f' : List Nat) (d' : Option (List Nat))
    (hperm : List.Perm ((decodePairs c p f (d.getD [])).map Prod.fst)
      ((decodePairs c' p' f' (d'.getD [])).map Prod.fst)) :
    List.Sorted (· < ·) (list ⟨g, makeGroupData c p f d, none⟩) ∧
    (list ⟨g, makeGroupData c p f d, none⟩).Nodup ∧
    list ⟨g, makeGroupData c p f d, none⟩ =
      list ⟨g, makeGroupData c' p' f' d', none⟩ := by
  have hs1 : List.Sorted (· < ·) (list ⟨g, makeGroupData c p f d, none⟩) :=
    sorted_keys_resourceFold _ _ [] (by simp)
  have hs2 : List.Sorted (· < ·) (list ⟨g, makeGroupData c' p' f' d', none⟩) :=
    sorted_keys_resourceFold _ _ [] (by simp)
  haveI : IsIrrefl (List Nat) (· < ·) := ⟨fun a => lt_irrefl a⟩
  haveI : IsAntisymm (List Nat) (· < ·) :=
    ⟨fun _ _ h₁ h₂ => absurd h₂ (lt_asymm h₁)⟩
  have hn1 : (list ⟨g, makeGroupData c p f d, none⟩).Nodup := hs1.nodup
  have hn2 : (list ⟨g, makeGroupData c' p' f' d', none⟩).Nodup := hs2.nodup
  have hmem : ∀ a, a ∈ list ⟨g, makeGroupData c p f d, none⟩ ↔
      a ∈ list ⟨g, makeGroupData c' p' f' d', none⟩ := by
    intro a
    have e1 : list ⟨g, makeGroupData c p f d, none⟩ =
        ((decodePairs c p f (d.getD [])).foldl
          (fun m pr => mapInsert pr.1 (pr.2, d.isNone) m) []).map Prod.fst := rfl
    have e2 : list ⟨g, makeGroupData c' p' f' d', none⟩ =
        ((decodePairs c' p' f' (d'.getD [])).foldl
          (fun m pr => mapInsert pr.1 (pr.2, d'.isNone) m) []).map Prod.fst := rfl
    rw [e1, e2, mem_keys_resourceFold, mem_keys_resourceFold]
    simp only [List.map_nil, List.not_mem_nil, or_false]
    exact hperm.mem_iff
  exact ⟨hs1, hn1,
    List.eq_of_perm_of_sorted ((List.perm_ext_iff_of_nodup hn1 hn2).mpr hmem)
      hs1 hs2⟩

/-- Witness for C10: the file lists `[b ↦ [1], a ↦ [2]]` and
`[a ↦ [2], b ↦ [1]]`, encoded exactly as `compile` would encode them,
decode to permuted name sequences and produce the identical sorted,
duplicate-free `list()`. -/
theorem list_sorted_nodup_order_independent_witness :
    List.Sorted (· < ·)
      (list ⟨[103], makeGroupData 2 [1, 0, 0, 0, 1, 0, 0, 0, 2, 0, 0, 0,
        2, 0, 0, 0] [98, 97] (some [1, 2]), none⟩) ∧
    (list ⟨[103], makeGroupData 2 [1, 0, 0, 0, 1, 0, 0, 0, 2, 0, 0, 0,
      2, 0, 0, 0] [98, 97] (some [1, 2]), none⟩).Nodup ∧
    list ⟨[103], makeGroupData 2 [1, 0, 0, 0, 1, 0, 0, 0, 2, 0, 0, 0,
      2, 0, 0, 0] [98, 97] (some [1, 2]), none⟩ =
      list ⟨[103], makeGroupData 2 [1, 0, 0, 0, 1, 0, 0, 0, 2, 0, 0, 0,
        2, 0, 0, 0] [97, 98] (some [2, 1]), none⟩ :=
  list_sorted_nodup_order_independent [103]
    2 [1, 0, 0, 0, 1, 0, 0, 0, 2, 0, 0, 0, 2, 0, 0, 0] [98, 97] (some [1, 2])
    2 [1, 0, 0, 0, 1, 0, 0, 0, 2, 0, 0, 0, 2, 0, 0, 0] [97, 98] (some [2, 1])
    (by decide)

/-! ## C1: `compile` / `registerData` round trip -/

lemma length_numberToString (n : Nat) : (numberToString n).length = 4 := rfl

lemma getD_append_shift (pre l : List Nat) (i : Nat) :
    (pre ++ l).getD (pre.length + i) 0 = l.getD i 0 := by
  rw [List.getD_append_right pre l 0 (pre.length + i) (Nat.le_add_right _ _),
    Nat.add_sub_cancel_left]

lemma readU32_append (pre l : List Nat) (i : Nat) :
    readU32 (pre ++ l) (pre.length + i) = readU32 l i := by
  unfold readU32
  have h1 : pre.length + i + 1 = pre.length + (i + 1) := by omega
  have h2 : pre.length + i + 2 = pre.length + (i + 2) := by omega
  have h3 : pre.length + i + 3 = pre.length + (i + 3) := by omega
  rw [h1, h2, h3, getD_append_shift, getD_append_shift, getD_append_shift,
    getD_append_shift]

lemma readU32_append_zero (pre l : List Nat) :
    readU32 (pre ++ l) pre.length = readU32 l 0 := by
  have h := readU32_append pre l 0
  simpa using h

lemma readU32_numberToString (n : Nat) (rest : List Nat) :
    readU32 (numberToString n ++ rest) 0 = n % M32 := by
  show readU32 (n % 256 :: (n / 256 % 256 :: (n / 65536 % 256 ::
    (n / 16777216 % 256 :: rest)))) 0 = n % M32
  unfold readU32 M32
  simp only [List.getD_cons_zero, List.getD_cons_succ]
  omega

lemma readU32_numberToString_four (a b : Nat) (rest : List Nat) :
    readU32 (numberToString a ++ (numberToString b ++ rest)) 4 = b % M32 := by
  have h := readU32_append (numberToString a) (numberToString b ++ rest) 0
  rw [readU32_numberToString] at h
  simpa using h

lemma usub32_of_le (a b : Nat) (hba : b ≤ a) (ha : a < M32) :
    usub32 a b = a - b := by
  unfold usub32 M32 at *
  omega

lemma namesBlob_cons (n c : List Nat) (rest : List (List Nat × List Nat)) :
    namesBlob ((n, c) :: rest) = n ++ namesBlob rest := by
  simp [namesBlob]

lemma dataBlob_cons (n c : List Nat) (rest : List (List Nat × List Nat)) :
    dataBlob ((n, c) :: rest) = c ++ dataBlob rest := by
  simp [dataBlob]

lemma namesLen_cons (pr : List Nat × List Nat)
    (rest : List (List Nat × List Nat)) :
    namesLen (pr :: rest) = pr.1.length + namesLen rest := by
  simp [namesLen]

lemma dataLen_cons (pr : List Nat × List Nat)
    (rest : List (List Nat × List Nat)) :
    dataLen (pr :: rest) = pr.2.length + dataLen rest := by
  simp [dataLen]

lemma decodeLoop_encodePositionsFrom (files : List (List Nat × List Nat)) :
    ∀ (fAcc dAcc : Nat) (Ppre Fpre Dpre Fsuf Dsuf : List Nat),
      Fpre.length = fAcc → Dpre.length = dAcc →
      fAcc + namesLen files < M32 → dAcc + dataLen files < M32 →
      decodeLoop (Ppre ++ encodePositionsFrom files fAcc dAcc)
        (Fpre ++ (namesBlob files ++ Fsuf)) (Dpre ++ (dataBlob files ++ Dsuf))
        files.length Ppre.length fAcc dAcc = files := by
  induction files with
  | nil => intro fAcc dAcc Ppre Fpre Dpre Fsuf Dsuf _ _ _ _; rfl
  | cons pr rest ih =>
    obtain ⟨n, c⟩ := pr
    intro fAcc dAcc Ppre Fpre Dpre Fsuf Dsuf hF hD hbf hbd
    rw [namesLen_cons] at hbf
    rw [dataLen_cons] at hbd
    have hfm : (fAcc + n.length) % M32 = fAcc + n.length :=
      Nat.mod_eq_of_lt (by simp at hbf; omega)
    have hdm : (dAcc + c.length) % M32 = dAcc + c.length :=
      Nat.mod_eq_of_lt (by simp at hbd; omega)
    have henc : encodePositionsFrom ((n, c) :: rest) fAcc dAcc =
        numberToString (fAcc + n.length) ++
          (numberToString (dAcc + c.length) ++
            encodePositionsFrom rest (fAcc + n.length) (dAcc + c.length)) := by
      rw [encodePositionsFrom, hfm, hdm]
    have hread1 : readU32
        (Ppre ++ encodePositionsFrom ((n, c) :: rest) fAcc dAcc) Ppre.length =
        fAcc + n.length := by
      rw [henc, readU32_append_zero, readU32_numberToString, hfm]
    have hread2 : readU32
        (Ppre ++ encodePositionsFrom ((n, c) :: rest) fAcc dAcc)
        (Ppre.length + 4) = dAcc + c.length := by
      rw [henc, readU32_append, readU32_numberToString_four, hdm]
    have hu1 : usub32 (fAcc + n.length) fAcc = n.length := by
      rw [usub32_of_le _ _ (Nat.le_add_right _ _) (by simp at hbf ⊢; omega)]
      omega
    have hu2 : usub32 (dAcc + c.length) dAcc = c.length := by
      rw [usub32_of_le _ _ (Nat.le_add_right _ _) (by simp at hbd ⊢; omega)]
      omega
    have hFslice :
        ((Fpre ++ (namesBlob ((n, c) :: rest) ++ Fsuf)).drop fAcc).take
          n.length = n := by
      rw [← hF, List.drop_left, namesBlob_cons, List.append_assoc,
        List.take_left]
    have hDslice :
        ((Dpre ++ (dataBlob ((n, c) :: rest) ++ Dsuf)).drop dAcc).take
          c.length = c := by
      rw [← hD, List.drop_left, dataBlob_cons, List.append_assoc,
        List.take_left]
    rw [List.length_cons, decodeLoop, hread1, hread2, hu1, hu2, hFslice,
      hDslice]
    refine congrArg (List.cons (n, c)) ?_
    have hP : Ppre ++ encodePositionsFrom ((n, c) :: rest) fAcc dAcc =
        (Ppre ++ numberToString (fAcc + n.length) ++
          numberToString (dAcc + c.length)) ++
          encodePositionsFrom rest (fAcc + n.length) (dAcc + c.length) := by
      rw [henc]
      simp [List.append_assoc]
    have hFr : Fpre ++ (namesBlob ((n, c) :: rest) ++ Fsuf) =
        (Fpre ++ n) ++ (namesBlob rest ++ Fsuf) := by
      rw [namesBlob_cons]
      simp [List.append_assoc]
    have hDr : Dpre ++ (dataBlob ((n, c) :: rest) ++ Dsuf) =
        (Dpre ++ c) ++ (dataBlob rest ++ Dsuf) := by
      rw [dataBlob_cons]
      simp [List.append_assoc]
    have hlen : (Ppre ++ numberToString (fAcc + n.length) ++
        numberToString (dAcc + c.length)).length = Ppre.length + 8 := by
      simp [length_numberToString]
    have htail := ih (fAcc + n.length) (dAcc + c.length)
      (Ppre ++ numberToString (fAcc + n.length) ++
        numberToString (dAcc + c.length))
      (Fpre ++ n) (Dpre ++ c) Fsuf Dsuf (by simp [hF]) (by simp [hD])
      (by simp at hbf ⊢; omega) (by simp at hbd ⊢; omega)
    rw [hlen] at htail
    rw [hP, hFr, hDr]
    exact htail

lemma dataLenFinal_from (files : List (List Nat × List Nat)) :
    ∀ a, a < M32 →
      files.foldl (fun x p => (x + p.2.length) % M32) a =
        (a + dataLen files) % M32 := by
  induction files with
  | nil =>
    intro a ha
    simp [dataLen, Nat.mod_eq_of_lt ha]
  | cons pr rest ih =>
    intro a ha
    rw [List.foldl_cons,
      ih ((a + pr.2.length) % M32) (Nat.mod_lt _ (by norm_num [M32])),
      dataLen_cons, Nat.mod_add_mod, Nat.add_assoc]

lemma dataLenFinal_eq (files : List (List Nat × List Nat)) :
    dataLenFinal files = dataLen files % M32 := by
  have h := dataLenFinal_from files 0 (by norm_num [M32])
  simpa [dataLenFinal] using h

lemma dataBlob_length (files : List (List Nat × List Nat)) :
    (dataBlob files).length = dataLen files := by
  induction files with
  | nil => rfl
  | cons pr rest ih =>
    obtain ⟨n, c⟩ := pr
    rw [dataBlob_cons, dataLen_cons, List.length_append, ih]

/-- C1 amended: for every non-empty ordered list of files (non-empty names,
possibly empty contents) whose file count stays below `2^29` and whose total
filename length and total content length each stay below `2^32` — the
capacity of `compile`'s 32-bit cumulative counters — encoding with `compile`
and then decoding the emitted count/positions/filenames/data arrays with
`registerData`'s loop reproduces exactly the same ordered (name, content)
pairs, byte for byte. -/
theorem compile_registerData_roundtrip (files : List (List Nat × List Nat))
    (hne : files ≠ []) (hnames : ∀ pr ∈ files, pr.1 ≠ [])
    (hcount : files.length < 536870912)
    (hnl : namesLen files < M32) (hdl : dataLen files < M32) :
    decodePairs (compile files).count (compile files).positions
      (compile files).filenames ((compile files).data.getD []) = files := by
  have hie : files.isEmpty = false := by
    cases files with
    | nil => exact absurd rfl hne
    | cons a l => rfl
  have hcomp : compile files =
      ⟨files.length, encodePositionsFrom files 0 0, namesBlob files,
        if dataLenFinal files = 0 then none else some (dataBlob files)⟩ := by
    rw [compile, hie]
    rfl
  have hdata :
      (if dataLenFinal files = 0 then none
        else some (dataBlob files)).getD [] = dataBlob files := by
    by_cases h0 : dataLenFinal files = 0
    · rw [if_pos h0]
      rw [dataLenFinal_eq, Nat.mod_eq_of_lt hdl] at h0
      have hb : dataBlob files = [] :=
        List.length_eq_zero.mp (by rw [dataBlob_length, h0])
      simp [hb]
    · rw [if_neg h0]
      rfl
  rw [hcomp]
  show decodePairs files.length (encodePositionsFrom files 0 0)
    (namesBlob files)
    ((if dataLenFinal files = 0 then none
      else some (dataBlob files)).getD []) = files
  rw [hdata, decodePairs, Nat.mod_eq_of_lt hcount]
  have h := decodeLoop_encodePositionsFrom files 0 0 [] [] [] [] [] rfl rfl
    (by simpa using hnl) (by simpa using hdl)
  simpa using h

/-- Witness for C1's amended round trip on the two files
`hi ↦ [1,2,3]` and `a ↦ []`. -/
theorem compile_registerData_roundtrip_witness :
    decodePairs (compile [([104, 105], [1, 2, 3]), ([97], [])]).count
      (compile [([104, 105], [1, 2, 3]), ([97], [])]).positions
      (compile [([104, 105], [1, 2, 3]), ([97], [])]).filenames
      ((compile [([104, 105], [1, 2, 3]), ([97], [])]).data.getD []) =
      [([104, 105], [1, 2, 3]), ([97], [])] :=
  compile_registerData_roundtrip [([104, 105], [1, 2, 3]), ([97], [])]
    (by decide) (by decide) (by decide) (by decide) (by decide)

/-- A single file whose (non-empty) name has exactly `2^32` bytes: the
32-bit `filenamesLen` counter wraps to 0 while encoding it. -/
def overflowFiles : List (List Nat × List Nat) :=
  [(List.replicate 4294967296 97, [])]

/-- Counterexample to C1 as stated: the claim quantifies over *every*
non-empty list of files with non-empty names, but `compile` accumulates the
name and content totals in 32-bit `unsigned int` counters.  For a single
file whose name is `2^32` copies of `'a'`, the emitted cumulative positions
are `(0, 0)`, so `registerData` decodes the empty name with empty contents
instead of the original pair: the round trip fails without the size bounds
of the amended claim. -/
lemma decodeLoop_one (P F D : List Nat) (i oldF oldD : Nat) :
    decodeLoop P F D 1 i oldF oldD =
      [((F.drop oldF).take (usub32 (readU32 P i) oldF),
        (D.drop oldD).take (usub32 (readU32 P (i+4)) oldD))] := rfl

theorem compile_roundtrip_counterexample :
    overflowFiles ≠ [] ∧
    (List.replicate 4294967296 97 : List Nat) ≠ [] ∧
    decodePairs (compile overflowFiles).count (compile overflowFiles).positions
      (compile overflowFiles).filenames
      ((compile overflowFiles).data.getD []) ≠ overflowFiles := by
  refine ⟨by rw [overflowFiles]; exact List.cons_ne_nil _ _, ?_, ?_⟩
  · intro h
    have hl := congrArg List.length h
    rw [List.length_replicate, List.length_nil] at hl
    exact absurd hl (by norm_num)
  · have hlen : (List.replicate 4294967296 (97 : Nat)).length = 4294967296 :=
      List.length_replicate _ _
    have h1 : (0 + (List.replicate 4294967296 (97 : Nat)).length) % M32 = 0 := by
      rw [hlen]
      norm_num [M32]
    have h2 : (0 + ([] : List Nat).length) % M32 = 0 := by norm_num [M32]
    have hpos : encodePositionsFrom overflowFiles 0 0 =
        [0, 0, 0, 0, 0, 0, 0, 0] := by
      rw [overflowFiles, encodePositionsFrom, h1, h2, encodePositionsFrom]
      rfl
    have hnb : namesBlob overflowFiles = List.replicate 4294967296 97 := by
      rw [overflowFiles, namesBlob_cons]
      rw [show namesBlob [] = [] from rfl, List.append_nil]
    have hdlf : dataLenFinal overflowFiles = 0 := by
      rw [overflowFiles, dataLenFinal]
      rfl
    have hcomp : compile overflowFiles =
        ⟨1, [0, 0, 0, 0, 0, 0, 0, 0], List.replicate 4294967296 97, none⟩ := by
      have hie : overflowFiles.isEmpty = false := rfl
      rw [compile, hie, if_neg Bool.false_ne_true, hpos, hnb, hdlf,
        if_pos rfl, show overflowFiles.length = 1 from rfl]
    rw [hcomp]
    show decodePairs 1 [0, 0, 0, 0, 0, 0, 0, 0]
      (List.replicate 4294967296 97) (Option.getD none []) ≠ overflowFiles
    have hm : (1 : Nat) % 536870912 = 1 := by norm_num
    rw [decodePairs, hm, decodeLoop_one]
    have hr0 : readU32 [0, 0, 0, 0, 0, 0, 0, 0] 0 = 0 := by decide
    have hr4 : readU32 [0, 0, 0, 0, 0, 0, 0, 0] (0 + 4) = 0 := by decide
    have hu : usub32 0 0 = 0 := by decide
    rw [hr0, hr4, hu, List.take_zero, List.take_zero, overflowFiles]
    intro h
    injection h with h1 _
    injection h1 with ha _
    have hl := congrArg List.length ha
    rw [List.length_nil, List.length_replicate] at hl
    exact absurd hl (by norm_num)

end Corrade
